import Mathlib

namespace Randomize

/-! Shallow embedding of `randomize.hpp` (randomize-cpp14).

The repository is a header-only wrapper around the C++ standard library's
random facilities.  Components of the standard library itself
(`std::mt19937_64`, `std::uniform_int_distribution`,
`std::uniform_real_distribution`, `std::unordered_map`, the
high-resolution clock) are not repository code; they are modelled here by
executable stand-ins satisfying exactly the contracts the C++ standard
gives them:

* the engine is an abstract deterministic 64-bit generator: a state below
  2^64 that advances on every draw (the concrete update formula is
  irrelevant to every claim - range facts are proved for every raw output);
* `std::uniform_int_distribution<T>{a, b}` applied to one raw draw returns
  a value in [a, b] whenever a <= b (concrete algorithm:
  a + r mod (b - a + 1));
* `std::uniform_real_distribution<T>{a, b}` returns a + u * (b - a) with
  u in [0, 1); floating-point values are modelled as rationals;
* `std::unordered_map` is an association list looked up by value-equality
  of the key, `emplace` inserts only when the key is absent, and
  `operator[]` default-constructs a missing entry;
* the high-resolution clock is a monotone counter in the program state.

Integral C++ value types are modelled by `Int` together with an `IntTy`
(width, signedness) giving their `std::numeric_limits`; floating-point
value types by `ℚ`.  The static locals of each function template
specialization (`details::get_rand_impl<T>` and
`details::rand_impl<T, min, max>` each own their `seed_time` / `engine` /
cache statics, one set per specialization, by C++ static-local semantics)
are fields of a global `ProgState`.
-/

def word64 : Nat := 2 ^ 64

/-- Stand-in for `std::mt19937_64` (standard library, not repository code):
one raw 64-bit output together with the advanced engine state.  No claim
depends on the concrete output sequence, only on outputs being naturals. -/
def engineNext (e : Nat) : Nat × Nat :=
  let t := (6364136223846793005 * e + 1442695040888963407) % word64
  (t, t)

/-- Embedding of `details::gen_seed`: reads the high-resolution clock and
truncates the reading to `unsigned` (32 bits).  The clock reading is an
explicit argument here; callers read it from the program state. -/
def gen_seed (clockReading : Nat) : Nat := clockReading % 2 ^ 32

/-- The `seed_time` / `engine` statics owned by one function template
specialization. -/
structure Statics where
  seed : Nat
  eng : Nat
deriving DecidableEq

/-- First use runs the static initializers (`static unsigned
seed_time{gen_seed()}; static auto engine = std::mt19937_64{seed_time};`):
one clock reading feeds `gen_seed` and the seed constructs the engine.
Later uses leave the statics unchanged.  Returns the statics together with
the clock after the possible reading. -/
def ensureStatics (cur : Option Statics) (clock : Nat) : Statics × Nat :=
  match cur with
  | some st => (st, clock)
  | none => (⟨gen_seed clock, gen_seed clock⟩, clock + 1)

/-- `std::uniform_int_distribution<T>`: its parameters a = min, b = max
(the names `a`, `b` follow the standard's accessors `a()`, `b()`). -/
structure UniformIntDist where
  a : Int
  b : Int
deriving DecidableEq

/-- Applying the distribution to one raw engine draw: per the standard's
contract the result lies in [a, b] whenever a <= b; concretely
a + r mod (b - a + 1). -/
def UniformIntDist.apply (d : UniformIntDist) (r : Nat) : Int :=
  d.a + ((r % (d.b - d.a + 1).toNat : Nat) : Int)

/-- A default-constructed `std::uniform_int_distribution<int>`: parameters
0 and `std::numeric_limits<int>::max()`.  This is what the cache's
`operator[]` would create at a missing key; the branch is unreachable in
the source because every closure key was emplaced first. -/
def defaultIntDist : UniformIntDist := ⟨0, 2 ^ 31 - 1⟩

/-- `std::uniform_real_distribution<T>`, values modelled as rationals. -/
structure UniformRealDist where
  a : ℚ
  b : ℚ
deriving DecidableEq

/-- Applying the real distribution to one raw engine draw:
a + u * (b - a) with u = (r mod 2^64) / 2^64 in [0, 1). -/
def UniformRealDist.apply (d : UniformRealDist) (r : Nat) : ℚ :=
  d.a + ((r % word64 : Nat) : ℚ) / (word64 : ℚ) * (d.b - d.a)

/-- A default-constructed `std::uniform_real_distribution`: parameters
0.0 and 1.0 (unreachable at call sites, as for `defaultIntDist`). -/
def defaultRealDist : UniformRealDist := ⟨0, 1⟩

/-- `details::uniform_distribution(T min, T max)`, integral overload:
`std::uniform_int_distribution<T>{min, max}`. -/
def uniform_distribution_int (min max : Int) : UniformIntDist := ⟨min, max⟩

/-- `details::uniform_distribution(T min, T max)`, floating overload:
`std::uniform_real_distribution<T>{min, max}`. -/
def uniform_distribution_rat (min max : ℚ) : UniformRealDist := ⟨min, max⟩

/-- `details::uniform_distribution<T, min, max>()`, integral overload
(min, max template parameters): `std::uniform_int_distribution<T>{min, max}`. -/
def uniform_distribution_tmpl_int (min max : Int) : UniformIntDist := ⟨min, max⟩

/-- `details::uniform_distribution<T, min, max>()`, floating overload:
the `long long` template bounds are cast to T
(`std::uniform_real_distribution<T>{static_cast<T>(min), static_cast<T>(max)}`). -/
def uniform_distribution_tmpl_rat (min max : Int) : UniformRealDist :=
  ⟨(min : ℚ), (max : ℚ)⟩

/-- An integral C++ value type: bit width and signedness, fixing its
`std::numeric_limits`. -/
structure IntTy where
  width : Nat
  signed : Bool
deriving DecidableEq

/-- `std::numeric_limits<T>::min()` of an integral type. -/
def numeric_limits_min (t : IntTy) : Int :=
  if t.signed then -(2 ^ (t.width - 1) : Int) else 0

/-- `std::numeric_limits<T>::max()` of an integral type. -/
def numeric_limits_max (t : IntTy) : Int :=
  if t.signed then (2 ^ (t.width - 1) : Int) - 1 else (2 ^ t.width : Int) - 1

/-- The C++ `short` type: 16-bit signed. -/
def shortTy : IntTy := ⟨16, true⟩

/-- `std::numeric_limits<long long>::min()`. -/
def longlong_min : Int := -(2 ^ 63)

/-- `std::numeric_limits<long long>::max()`. -/
def longlong_max : Int := 2 ^ 63 - 1

/-- `details::range<T>::min` for integral T: the type's numeric limit. -/
def range_integral_min (t : IntTy) : Int := numeric_limits_min t

/-- `details::range<T>::max` for integral T: the type's numeric limit. -/
def range_integral_max (t : IntTy) : Int := numeric_limits_max t

/-- `details::range<T>::min` for floating-point T: `value_type` is
`long long`, so the `long long` minimum. -/
def range_floating_min : Int := longlong_min

/-- `details::range<T>::max` for floating-point T: the `long long` maximum. -/
def range_floating_max : Int := longlong_max

/-- Conversion of a (possibly signed, possibly negative) integral value to
`std::size_t`: wraparound modulo 2^64. -/
def size_t_of_int (x : Int) : Nat := (x % (word64 : Int)).toNat

/-- `details::hash_pair<T>::operator()` (non-Boost branch) at integral key
types: `std::size_t hash{17}; hash = hash * 31 + p.first;
hash = hash * 31 + p.second; return (hash & 0x7fffffff) % 100003;`
with `size_t` arithmetic wrapping modulo 2^64. -/
def hash_pair (p : Int × Int) : Nat :=
  let hash0 : Nat := 17
  let hash1 : Nat := (hash0 * 31 + size_t_of_int p.1) % word64
  let hash2 : Nat := (hash1 * 31 + size_t_of_int p.2) % word64
  (hash2 &&& 0x7fffffff) % 100003

/-- Conversion of a floating-point value (modelled as ℚ) to `std::size_t`
(C++ [conv.fpint]): the value is truncated toward zero, and the conversion
is defined exactly when the truncated value is representable in `size_t`,
i.e. for -1 < x < 2^64; otherwise the behaviour is undefined (`none`). -/
def size_t_of_rat (x : ℚ) : Option Nat :=
  if -1 < x ∧ x < (word64 : ℚ) then
    some (if x < 0 then 0 else (x.num / (x.den : Int)).toNat)
  else none

/-- `details::hash_pair<T>::operator()` (non-Boost branch) at a
floating-point key type T.  `hash` is a `std::size_t`, but
`hash = hash * 31 + p.first` mixes types: `hash * 31` wraps in `size_t`,
the addition is carried out in T's floating-point arithmetic, and the
assignment back to `hash` converts the floating value to `size_t` -
truncation toward zero that is undefined behaviour when the truncated
value is out of range, modelled as `none` (the source's own comment warns
that the default hash "may overflow").  The `size_t` → T conversion can
round for values at or above 2^53; this rational model is exact, and every
concrete fact proved below uses only exactly representable intermediates. -/
def hash_pair_rat (p : ℚ × ℚ) : Option Nat :=
  match size_t_of_rat (((17 * 31 % word64 : Nat) : ℚ) + p.1) with
  | none => none
  | some hash1 =>
    match size_t_of_rat (((hash1 * 31 % word64 : Nat) : ℚ) + p.2) with
    | none => none
    | some hash2 => some ((hash2 &&& 0x7fffffff) % 100003)

/-- Lookup by value-equality of the key (`std::unordered_map` find). -/
def assocFind {K V : Type} [DecidableEq K] (k : K) : List (K × V) → Option V
  | [] => none
  | (k2, v) :: rest => if k2 = k then some v else assocFind k rest

/-- `std::unordered_map::emplace`: inserts only when the key is absent;
an existing entry is never replaced. -/
def emplace {K V : Type} [DecidableEq K] (m : List (K × V)) (k : K) (v : V) :
    List (K × V) :=
  match assocFind k m with
  | some _ => m
  | none => m ++ [(k, v)]

/-- `std::unordered_map::operator[]`: returns the entry at the key,
default-constructing it first when absent. -/
def mapIndex {K V : Type} [DecidableEq K] (m : List (K × V)) (k : K) (dflt : V) :
    V × List (K × V) :=
  match assocFind k m with
  | some v => (v, m)
  | none => (dflt, m ++ [(k, dflt)])

/-- Number of entries stored at a key. -/
def countKey {K V : Type} [DecidableEq K] (m : List (K × V)) (k : K) : Nat :=
  m.countP (fun p => decide (p.1 = k))

/-- The global mutable state of the program: the high-resolution clock and
the static locals of every function template specialization the claims
concern.  `details::get_rand_impl<T>` owns one `seed_time`/`engine` pair
and one `generators` cache per value type T (one integral and one
floating-point instantiation are carried); `details::rand_impl<T, min, max>`
owns one `seed_time`/`engine` pair per (T, min, max) specialization
(carried as a map from specialization to statics). -/
structure ProgState where
  clock : Nat
  intStatics : Option Statics
  intGens : List ((Int × Int) × UniformIntDist)
  ratStatics : Option Statics
  ratGens : List ((ℚ × ℚ) × UniformRealDist)
  tmplIntStatics : List ((IntTy × Int × Int) × Statics)
  tmplRatStatics : List ((Int × Int) × Statics)
deriving DecidableEq

/-- The state at program start: clock at 0, no static yet initialized. -/
def progInit : ProgState := ⟨0, none, [], none, [], [], []⟩

/-- Replace (or add) the statics of one template specialization. -/
def assocUpdate {K V : Type} [DecidableEq K] (k : K) (v : V) :
    List (K × V) → List (K × V)
  | [] => [(k, v)]
  | (k2, v2) :: rest =>
      if k2 = k then (k, v) :: rest else (k2, v2) :: assocUpdate k v rest

/-- Embedding of `details::get_rand_impl<T>` at an integral T: runs the
static initializers if needed, emplaces the distribution for (min, max)
into the cache, and returns the
closure.  The closure captures only the key (min, max) by value, so it is
represented by that key; invoking it is `sampler_invoke_int`. -/
def get_rand_impl_int (min max : Int) (s : ProgState) :
    (Int × Int) × ProgState :=
  let stclk := ensureStatics s.intStatics s.clock
  let gens := emplace s.intGens (min, max) (uniform_distribution_int min max)
  ((min, max),
   { s with clock := stclk.2, intStatics := some stclk.1, intGens := gens })

/-- Invoking a closure returned by `get_rand_impl` at an integral T:
`return generators[key](engine);` - `operator[]` on the cache, then one
engine draw through the found distribution.  (The `none` branch is
unreachable in the source: a closure only exists after `get_rand_impl`
has run its static initializers; it is modelled as returning 0.) -/
def sampler_invoke_int (key : Int × Int) (s : ProgState) : Int × ProgState :=
  match s.intStatics with
  | none => (0, s)
  | some st =>
    let dg := mapIndex s.intGens key defaultIntDist
    let re := engineNext st.eng
    (dg.1.apply re.1,
     { s with intGens := dg.2, intStatics := some ⟨st.seed, re.2⟩ })

/-- Embedding of `details::rand_impl(T min, T max)` at an integral T:
`auto f = get_rand_impl(min, max); return f();`. -/
def rand_impl_int (min max : Int) (s : ProgState) : Int × ProgState :=
  sampler_invoke_int (get_rand_impl_int min max s).1 (get_rand_impl_int min max s).2

/-- Embedding of `details::get_rand_impl<T>` at a floating-point T
(its own statics cell, distinct from the integral instantiation's). -/
def get_rand_impl_rat (min max : ℚ) (s : ProgState) :
    (ℚ × ℚ) × ProgState :=
  let stclk := ensureStatics s.ratStatics s.clock
  let gens := emplace s.ratGens (min, max) (uniform_distribution_rat min max)
  ((min, max),
   { s with clock := stclk.2, ratStatics := some stclk.1, ratGens := gens })

/-- Invoking a closure returned by `get_rand_impl` at a floating-point T. -/
def sampler_invoke_rat (key : ℚ × ℚ) (s : ProgState) : ℚ × ProgState :=
  match s.ratStatics with
  | none => (0, s)
  | some st =>
    let dg := mapIndex s.ratGens key defaultRealDist
    let re := engineNext st.eng
    (dg.1.apply re.1,
     { s with ratGens := dg.2, ratStatics := some ⟨st.seed, re.2⟩ })

/-- Embedding of `details::rand_impl(T min, T max)` at a floating-point T. -/
def rand_impl_rat (min max : ℚ) (s : ProgState) : ℚ × ProgState :=
  sampler_invoke_rat (get_rand_impl_rat min max s).1 (get_rand_impl_rat min max s).2

/-- Embedding of `details::rand_impl<T, min, max>()` at an integral T:
statics (`seed_time`, the distribution `generator`, `engine`) owned by the
(T, min, max) specialization; one draw advances that engine. -/
def rand_impl_tmpl_int (t : IntTy) (min max : Int) (s : ProgState) :
    Int × ProgState :=
  let stclk := ensureStatics (assocFind (t, min, max) s.tmplIntStatics) s.clock
  let generator := uniform_distribution_tmpl_int min max
  let re := engineNext stclk.1.eng
  (generator.apply re.1,
   { s with clock := stclk.2,
            tmplIntStatics :=
              assocUpdate (t, min, max) ⟨stclk.1.seed, re.2⟩ s.tmplIntStatics })

/-- Embedding of `details::rand_impl<T, min, max>()` at a floating-point T:
min and max are `long long` template parameters, cast into the
distribution; statics owned by the (T, min, max) specialization. -/
def rand_impl_tmpl_rat (min max : Int) (s : ProgState) : ℚ × ProgState :=
  let stclk := ensureStatics (assocFind (min, max) s.tmplRatStatics) s.clock
  let generator := uniform_distribution_tmpl_rat min max
  let re := engineNext stclk.1.eng
  (generator.apply re.1,
   { s with clock := stclk.2,
            tmplRatStatics :=
              assocUpdate (min, max) ⟨stclk.1.seed, re.2⟩ s.tmplRatStatics })

/-- `randomize::rand(T min, T max)` at an integral T (the `static_assert`
that T is arithmetic holds by construction of the embedding). -/
def rand_int (min max : Int) (s : ProgState) : Int × ProgState :=
  rand_impl_int min max s

/-- `randomize::rand(T min, T max)` at a floating-point T. -/
def rand_rat (min max : ℚ) (s : ProgState) : ℚ × ProgState :=
  rand_impl_rat min max s

/-- `randomize::get_rand(T min, T max)` at an integral T. -/
def get_rand_int (min max : Int) (s : ProgState) : (Int × Int) × ProgState :=
  get_rand_impl_int min max s

/-- `randomize::get_rand(T min, T max)` at a floating-point T. -/
def get_rand_rat (min max : ℚ) (s : ProgState) : (ℚ × ℚ) × ProgState :=
  get_rand_impl_rat min max s

/-- `randomize::rand<T, min, max>()` at an integral T. -/
def rand_tmpl_int (t : IntTy) (min max : Int) (s : ProgState) : Int × ProgState :=
  rand_impl_tmpl_int t min max s

/-- `randomize::rand<T>()` at an integral T: the template arguments default
to `details::range<T>::min` and `details::range<T>::max`. -/
def rand_tmpl_int_default (t : IntTy) (s : ProgState) : Int × ProgState :=
  rand_impl_tmpl_int t (range_integral_min t) (range_integral_max t) s

/-- `randomize::rand<T, min, max>()` at a floating-point T. -/
def rand_tmpl_rat (min max : Int) (s : ProgState) : ℚ × ProgState :=
  rand_impl_tmpl_rat min max s

/-- `randomize::rand<T>()` at a floating-point T: the template arguments
default to the `long long` limits of `details::range<T>`. -/
def rand_tmpl_rat_default (s : ProgState) : ℚ × ProgState :=
  rand_impl_tmpl_rat range_floating_min range_floating_max s

/-- One observable library call; lists of these quantify over every
possible sequence of later calls (the library exposes no re-seeding
operation, so none exists here). -/
inductive Op
  | getRandI (min max : Int)
  | invokeI (key : Int × Int)
  | randI (min max : Int)
  | randTmplI (t : IntTy) (min max : Int)
  | getRandR (min max : ℚ)
  | invokeR (key : ℚ × ℚ)
  | randR (min max : ℚ)
  | randTmplR (min max : Int)

/-- The state transformation of one library call (its value discarded). -/
def step (s : ProgState) : Op → ProgState
  | .getRandI a b => (get_rand_impl_int a b s).2
  | .invokeI k => (sampler_invoke_int k s).2
  | .randI a b => (rand_impl_int a b s).2
  | .randTmplI t a b => (rand_impl_tmpl_int t a b s).2
  | .getRandR a b => (get_rand_impl_rat a b s).2
  | .invokeR k => (sampler_invoke_rat k s).2
  | .randR a b => (rand_impl_rat a b s).2
  | .randTmplR a b => (rand_impl_tmpl_rat a b s).2

/-- Run a sequence of library calls. -/
def run (s : ProgState) : List Op → ProgState
  | [] => s
  | op :: ops => run (step s op) ops

/-- n successive invocations of one integral sampler closure, collecting
the returned values. -/
def sampler_run_int (key : Int × Int) : Nat → ProgState → List Int × ProgState
  | 0, s => ([], s)
  | n + 1, s =>
    ((sampler_invoke_int key s).1
        :: (sampler_run_int key n (sampler_invoke_int key s).2).1,
     (sampler_run_int key n (sampler_invoke_int key s).2).2)

/-- n successive invocations of one floating-point sampler closure. -/
def sampler_run_rat (key : ℚ × ℚ) : Nat → ProgState → List ℚ × ProgState
  | 0, s => ([], s)
  | n + 1, s =>
    ((sampler_invoke_rat key s).1
        :: (sampler_run_rat key n (sampler_invoke_rat key s).2).1,
     (sampler_run_rat key n (sampler_invoke_rat key s).2).2)

/-- The integral cache is clean at a key: the key is absent, or bound to
the distribution constructed for exactly that key.  Every state the source
program can reach satisfies this at every key a closure can carry, since
the `operator[]`-default branch is unreachable. -/
def keyCleanInt (s : ProgState) (min max : Int) : Prop :=
  assocFind (min, max) s.intGens = none ∨
  assocFind (min, max) s.intGens = some (uniform_distribution_int min max)

instance (s : ProgState) (min max : Int) : Decidable (keyCleanInt s min max) := by
  unfold keyCleanInt
  infer_instance

/-- The floating-point cache is clean at a key. -/
def keyCleanRat (s : ProgState) (min max : ℚ) : Prop :=
  assocFind (min, max) s.ratGens = none ∨
  assocFind (min, max) s.ratGens = some (uniform_distribution_rat min max)

instance (s : ProgState) (min max : ℚ) : Decidable (keyCleanRat s min max) := by
  unfold keyCleanRat
  infer_instance

/-! ### Lemmas about the map model -/

theorem assocFind_append_right {K V : Type} [DecidableEq K] (m l : List (K × V))
    (k : K) (v : V) (h : assocFind k m = some v) :
    assocFind k (m ++ l) = some v := by
  induction m with
  | nil => simp [assocFind] at h
  | cons p rest ih =>
    obtain ⟨k2, v2⟩ := p
    rw [List.cons_append]
    simp only [assocFind] at h ⊢
    by_cases hk : k2 = k
    · simpa [hk] using h
    · simp only [if_neg hk] at h ⊢
      exact ih h

theorem assocFind_append_single_ne {K V : Type} [DecidableEq K]
    (m : List (K × V)) (k k2 : K) (v : V) (h : k2 ≠ k) :
    assocFind k (m ++ [(k2, v)]) = assocFind k m := by
  induction m with
  | nil => simp [assocFind, h]
  | cons p rest ih =>
    obtain ⟨k3, v3⟩ := p
    rw [List.cons_append]
    simp only [assocFind]
    by_cases hk : k3 = k
    · simp [hk]
    · simp [hk, ih]

theorem assocFind_append_single_self {K V : Type} [DecidableEq K]
    (m : List (K × V)) (k : K) (v : V) (h : assocFind k m = none) :
    assocFind k (m ++ [(k, v)]) = some v := by
  induction m with
  | nil => simp [assocFind]
  | cons p rest ih =>
    obtain ⟨k3, v3⟩ := p
    simp only [assocFind] at h
    rw [List.cons_append]
    simp only [assocFind]
    by_cases hk : k3 = k
    · simp [hk] at h
    · simp only [if_neg hk] at h ⊢
      exact ih h

theorem emplace_of_found {K V : Type} [DecidableEq K] (m : List (K × V))
    (k : K) (v d : V) (h : assocFind k m = some d) : emplace m k v = m := by
  unfold emplace
  rw [h]

theorem emplace_of_none {K V : Type} [DecidableEq K] (m : List (K × V))
    (k : K) (v : V) (h : assocFind k m = none) :
    emplace m k v = m ++ [(k, v)] := by
  unfold emplace
  rw [h]

theorem assocFind_emplace_self {K V : Type} [DecidableEq K] (m : List (K × V))
    (k : K) (v : V) (hclean : assocFind k m = none ∨ assocFind k m = some v) :
    assocFind k (emplace m k v) = some v := by
  rcases hclean with h | h
  · rw [emplace_of_none m k v h]
    exact assocFind_append_single_self m k v h
  · rw [emplace_of_found m k v v h]
    exact h

theorem assocFind_emplace_preserve {K V : Type} [DecidableEq K]
    (m : List (K × V)) (k k2 : K) (v d : V) (h : assocFind k m = some d) :
    assocFind k (emplace m k2 v) = some d := by
  cases h2 : assocFind k2 m with
  | some w => rw [emplace_of_found m k2 v w h2]; exact h
  | none =>
    rw [emplace_of_none m k2 v h2]
    have hk : k2 ≠ k := by
      intro he
      rw [he] at h2
      simp [h] at h2
    rw [assocFind_append_single_ne m k k2 v hk]
    exact h

theorem mapIndex_found {K V : Type} [DecidableEq K] (m : List (K × V))
    (k : K) (dflt d : V) (h : assocFind k m = some d) :
    mapIndex m k dflt = (d, m) := by
  unfold mapIndex
  rw [h]

theorem assocFind_mapIndex_preserve {K V : Type} [DecidableEq K]
    (m : List (K × V)) (k k2 : K) (dflt d : V) (h : assocFind k m = some d) :
    assocFind k (mapIndex m k2 dflt).2 = some d := by
  cases h2 : assocFind k2 m with
  | some w => rw [mapIndex_found m k2 dflt w h2]; exact h
  | none =>
    have hk : k2 ≠ k := by
      intro he
      rw [he] at h2
      simp [h] at h2
    unfold mapIndex
    rw [h2]
    show assocFind k (m ++ [(k2, dflt)]) = some d
    rw [assocFind_append_single_ne m k k2 dflt hk]
    exact h

theorem countKey_of_none {K V : Type} [DecidableEq K] (m : List (K × V))
    (k : K) (h : assocFind k m = none) : countKey m k = 0 := by
  induction m with
  | nil => rfl
  | cons p rest ih =>
    obtain ⟨k3, v3⟩ := p
    simp only [assocFind] at h
    by_cases hk : k3 = k
    · simp [hk] at h
    · simp only [if_neg hk] at h
      have hr := ih h
      simp only [countKey, List.countP_cons] at hr ⊢
      simp [hk, hr]

theorem countKey_append_single {K V : Type} [DecidableEq K] (m : List (K × V))
    (k : K) (v : V) : countKey (m ++ [(k, v)]) k = countKey m k + 1 := by
  simp [countKey, List.countP_append, List.countP_cons]

/-! ### Range of one distribution draw -/

theorem uniformIntDist_apply_range (d : UniformIntDist) (r : Nat)
    (h : d.a ≤ d.b) : d.a ≤ d.apply r ∧ d.apply r ≤ d.b := by
  unfold UniformIntDist.apply
  have hcast : (((d.b - d.a + 1).toNat : Nat) : Int) = d.b - d.a + 1 :=
    Int.toNat_of_nonneg (by omega)
  have hpos : 0 < (d.b - d.a + 1).toNat := by omega
  have hlt : ((r % (d.b - d.a + 1).toNat : Nat) : Int)
      < (((d.b - d.a + 1).toNat : Nat) : Int) := by
    exact_mod_cast Nat.mod_lt r hpos
  have hge : (0 : Int) ≤ ((r % (d.b - d.a + 1).toNat : Nat) : Int) :=
    Int.ofNat_nonneg _
  omega

theorem uniformRealDist_apply_range (d : UniformRealDist) (r : Nat)
    (h : d.a ≤ d.b) : d.a ≤ d.apply r ∧ d.apply r ≤ d.b := by
  unfold UniformRealDist.apply
  have hw : (0 : ℚ) < (word64 : ℚ) := by norm_num [word64]
  have hu0 : (0 : ℚ) ≤ ((r % word64 : Nat) : ℚ) / (word64 : ℚ) :=
    div_nonneg (by positivity) hw.le
  have hu1 : ((r % word64 : Nat) : ℚ) / (word64 : ℚ) ≤ 1 := by
    rw [div_le_one hw]
    have hm : r % word64 < word64 := Nat.mod_lt r (by norm_num [word64])
    exact_mod_cast hm.le
  have hba : (0 : ℚ) ≤ d.b - d.a := sub_nonneg.mpr h
  have h1 : (0 : ℚ) ≤ ((r % word64 : Nat) : ℚ) / (word64 : ℚ) * (d.b - d.a) :=
    mul_nonneg hu0 hba
  have h2 : ((r % word64 : Nat) : ℚ) / (word64 : ℚ) * (d.b - d.a) ≤ d.b - d.a :=
    mul_le_of_le_one_left hba hu1
  constructor
  · linarith
  · linarith

/-! ### Numeric limits -/

theorem numeric_limits_min_le_max (t : IntTy) :
    numeric_limits_min t ≤ numeric_limits_max t := by
  unfold numeric_limits_min numeric_limits_max
  have h1 : (0 : Int) < 2 ^ (t.width - 1) := pow_pos (by norm_num) _
  have h2 : (0 : Int) < 2 ^ t.width := pow_pos (by norm_num) _
  by_cases hs : t.signed <;> simp [hs] <;> omega

theorem longlong_min_le_max : longlong_min ≤ longlong_max := by
  unfold longlong_min longlong_max
  norm_num

/-! ### Projection facts for the library operations -/

theorem get_rand_impl_int_fst (a b : Int) (s : ProgState) :
    (get_rand_impl_int a b s).1 = (a, b) := rfl

theorem get_rand_impl_int_gens (a b : Int) (s : ProgState) :
    (get_rand_impl_int a b s).2.intGens
      = emplace s.intGens (a, b) (uniform_distribution_int a b) := rfl

theorem get_rand_impl_int_statics (a b : Int) (s : ProgState) :
    (get_rand_impl_int a b s).2.intStatics
      = some (ensureStatics s.intStatics s.clock).1 := rfl

theorem get_rand_impl_rat_fst (a b : ℚ) (s : ProgState) :
    (get_rand_impl_rat a b s).1 = (a, b) := rfl

theorem get_rand_impl_rat_gens (a b : ℚ) (s : ProgState) :
    (get_rand_impl_rat a b s).2.ratGens
      = emplace s.ratGens (a, b) (uniform_distribution_rat a b) := rfl

theorem get_rand_impl_rat_statics (a b : ℚ) (s : ProgState) :
    (get_rand_impl_rat a b s).2.ratStatics
      = some (ensureStatics s.ratStatics s.clock).1 := rfl

theorem sampler_invoke_int_some (key : Int × Int) (s : ProgState) (st : Statics)
    (hst : s.intStatics = some st) :
    sampler_invoke_int key s
      = ((mapIndex s.intGens key defaultIntDist).1.apply (engineNext st.eng).1,
         { s with intGens := (mapIndex s.intGens key defaultIntDist).2,
                  intStatics := some ⟨st.seed, (engineNext st.eng).2⟩ }) := by
  unfold sampler_invoke_int
  rw [hst]

theorem sampler_invoke_rat_some (key : ℚ × ℚ) (s : ProgState) (st : Statics)
    (hst : s.ratStatics = some st) :
    sampler_invoke_rat key s
      = ((mapIndex s.ratGens key defaultRealDist).1.apply (engineNext st.eng).1,
         { s with ratGens := (mapIndex s.ratGens key defaultRealDist).2,
                  ratStatics := some ⟨st.seed, (engineNext st.eng).2⟩ }) := by
  unfold sampler_invoke_rat
  rw [hst]

/-! ### The per-type seed of get_rand_impl, once set, never changes -/

theorem step_intStatics_seed (s : ProgState) (op : Op) (st : Statics)
    (h : s.intStatics = some st) :
    ∃ e, (step s op).intStatics = some ⟨st.seed, e⟩ := by
  cases op with
  | getRandI a b =>
    refine ⟨st.eng, ?_⟩
    show (get_rand_impl_int a b s).2.intStatics = _
    rw [get_rand_impl_int_statics, h]
    rfl
  | invokeI k =>
    refine ⟨(engineNext st.eng).2, ?_⟩
    show (sampler_invoke_int k s).2.intStatics = _
    rw [sampler_invoke_int_some k s st h]
  | randI a b =>
    have h1 : (get_rand_impl_int a b s).2.intStatics = some (⟨st.seed, st.eng⟩ : Statics) := by
      rw [get_rand_impl_int_statics, h]
      rfl
    refine ⟨(engineNext st.eng).2, ?_⟩
    show (sampler_invoke_int (get_rand_impl_int a b s).1
        (get_rand_impl_int a b s).2).2.intStatics = _
    rw [sampler_invoke_int_some _ _ _ h1]
  | randTmplI t a b => exact ⟨st.eng, h⟩
  | getRandR a b => exact ⟨st.eng, h⟩
  | invokeR k =>
    refine ⟨st.eng, ?_⟩
    show (sampler_invoke_rat k s).2.intStatics = _
    unfold sampler_invoke_rat
    cases hr : s.ratStatics with
    | none => exact h
    | some st2 => exact h
  | randR a b => exact ⟨st.eng, h⟩
  | randTmplR a b => exact ⟨st.eng, h⟩

theorem run_intStatics_seed (s : ProgState) (st : Statics) (ops : List Op)
    (h : s.intStatics = some st) :
    ∃ e, (run s ops).intStatics = some ⟨st.seed, e⟩ := by
  induction ops generalizing s st with
  | nil => exact ⟨st.eng, h⟩
  | cons op ops ih =>
    obtain ⟨e, he⟩ := step_intStatics_seed s op st h
    obtain ⟨e2, he2⟩ := ih (step s op) ⟨st.seed, e⟩ he
    exact ⟨e2, he2⟩

/-! ### Cache bindings survive every later library call -/

theorem invoke_int_gens_preserve (key k : Int × Int) (d : UniformIntDist)
    (s : ProgState) (h : assocFind k s.intGens = some d) :
    assocFind k (sampler_invoke_int key s).2.intGens = some d := by
  unfold sampler_invoke_int
  cases hst : s.intStatics with
  | none => exact h
  | some st =>
    show assocFind k (mapIndex s.intGens key defaultIntDist).2 = some d
    exact assocFind_mapIndex_preserve s.intGens k key defaultIntDist d h

theorem getRand_int_gens_preserve (a b : Int) (k : Int × Int)
    (d : UniformIntDist) (s : ProgState) (h : assocFind k s.intGens = some d) :
    assocFind k (get_rand_impl_int a b s).2.intGens = some d := by
  rw [get_rand_impl_int_gens]
  exact assocFind_emplace_preserve s.intGens k (a, b)
    (uniform_distribution_int a b) d h

theorem invoke_rat_gens_preserve (key k : ℚ × ℚ) (d : UniformRealDist)
    (s : ProgState) (h : assocFind k s.ratGens = some d) :
    assocFind k (sampler_invoke_rat key s).2.ratGens = some d := by
  unfold sampler_invoke_rat
  cases hst : s.ratStatics with
  | none => exact h
  | some st =>
    show assocFind k (mapIndex s.ratGens key defaultRealDist).2 = some d
    exact assocFind_mapIndex_preserve s.ratGens k key defaultRealDist d h

theorem getRand_rat_gens_preserve (a b : ℚ) (k : ℚ × ℚ)
    (d : UniformRealDist) (s : ProgState) (h : assocFind k s.ratGens = some d) :
    assocFind k (get_rand_impl_rat a b s).2.ratGens = some d := by
  rw [get_rand_impl_rat_gens]
  exact assocFind_emplace_preserve s.ratGens k (a, b)
    (uniform_distribution_rat a b) d h

theorem step_intGens_preserve (s : ProgState) (op : Op) (k : Int × Int)
    (d : UniformIntDist) (h : assocFind k s.intGens = some d) :
    assocFind k (step s op).intGens = some d := by
  cases op with
  | getRandI a b => exact getRand_int_gens_preserve a b k d s h
  | invokeI key => exact invoke_int_gens_preserve key k d s h
  | randI a b =>
    show assocFind k (sampler_invoke_int (get_rand_impl_int a b s).1
        (get_rand_impl_int a b s).2).2.intGens = some d
    exact invoke_int_gens_preserve _ k d _
      (getRand_int_gens_preserve a b k d s h)
  | randTmplI t a b => exact h
  | getRandR a b => exact h
  | invokeR key =>
    show assocFind k (sampler_invoke_rat key s).2.intGens = some d
    unfold sampler_invoke_rat
    cases hr : s.ratStatics with
    | none => exact h
    | some st => exact h
  | randR a b => exact h
  | randTmplR a b => exact h

theorem run_intGens_preserve (s : ProgState) (ops : List Op) (k : Int × Int)
    (d : UniformIntDist) (h : assocFind k s.intGens = some d) :
    assocFind k (run s ops).intGens = some d := by
  induction ops generalizing s with
  | nil => exact h
  | cons op ops ih => exact ih (step s op) (step_intGens_preserve s op k d h)

/-! ### Every value drawn through a correctly-bound key is in range -/

theorem sampler_run_int_range (a b : Int) (hab : a ≤ b) :
    ∀ (n : Nat) (s : ProgState) (st : Statics), s.intStatics = some st →
      assocFind (a, b) s.intGens = some (uniform_distribution_int a b) →
      ∀ v ∈ (sampler_run_int (a, b) n s).1, a ≤ v ∧ v ≤ b := by
  intro n
  induction n with
  | zero =>
    intro s st hst hb v hv
    simp [sampler_run_int] at hv
  | succ n ih =>
    intro s st hst hb v hv
    have hinv := sampler_invoke_int_some (a, b) s st hst
    have hfound := mapIndex_found s.intGens (a, b) defaultIntDist _ hb
    simp only [sampler_run_int, List.mem_cons] at hv
    rcases hv with hv1 | hv2
    · subst hv1
      rw [hinv, hfound]
      exact uniformIntDist_apply_range (uniform_distribution_int a b) _ hab
    · refine ih (sampler_invoke_int (a, b) s).2
        ⟨st.seed, (engineNext st.eng).2⟩ ?_ ?_ v hv2
      · rw [hinv]
      · rw [hinv]
        show assocFind (a, b) (mapIndex s.intGens (a, b) defaultIntDist).2 = _
        rw [hfound]
        exact hb

theorem sampler_run_rat_range (a b : ℚ) (hab : a ≤ b) :
    ∀ (n : Nat) (s : ProgState) (st : Statics), s.ratStatics = some st →
      assocFind (a, b) s.ratGens = some (uniform_distribution_rat a b) →
      ∀ v ∈ (sampler_run_rat (a, b) n s).1, a ≤ v ∧ v ≤ b := by
  intro n
  induction n with
  | zero =>
    intro s st hst hb v hv
    simp [sampler_run_rat] at hv
  | succ n ih =>
    intro s st hst hb v hv
    have hinv := sampler_invoke_rat_some (a, b) s st hst
    have hfound := mapIndex_found s.ratGens (a, b) defaultRealDist _ hb
    simp only [sampler_run_rat, List.mem_cons] at hv
    rcases hv with hv1 | hv2
    · subst hv1
      rw [hinv, hfound]
      exact uniformRealDist_apply_range (uniform_distribution_rat a b) _ hab
    · refine ih (sampler_invoke_rat (a, b) s).2
        ⟨st.seed, (engineNext st.eng).2⟩ ?_ ?_ v hv2
      · rw [hinv]
      · rw [hinv]
        show assocFind (a, b) (mapIndex s.ratGens (a, b) defaultRealDist).2 = _
        rw [hfound]
        exact hb

theorem get_rand_impl_int_binds (a b : Int) (s : ProgState)
    (hclean : keyCleanInt s a b) :
    assocFind (a, b) (get_rand_impl_int a b s).2.intGens
      = some (uniform_distribution_int a b) := by
  rw [get_rand_impl_int_gens]
  exact assocFind_emplace_self s.intGens (a, b) _ hclean

theorem get_rand_impl_rat_binds (a b : ℚ) (s : ProgState)
    (hclean : keyCleanRat s a b) :
    assocFind (a, b) (get_rand_impl_rat a b s).2.ratGens
      = some (uniform_distribution_rat a b) := by
  rw [get_rand_impl_rat_gens]
  exact assocFind_emplace_self s.ratGens (a, b) _ hclean

theorem rand_impl_int_val (a b : Int) (s : ProgState)
    (hclean : keyCleanInt s a b) :
    (rand_impl_int a b s).1
      = (uniform_distribution_int a b).apply
          (engineNext (ensureStatics s.intStatics s.clock).1.eng).1 := by
  have hb := get_rand_impl_int_binds a b s hclean
  have hinv := sampler_invoke_int_some (a, b) (get_rand_impl_int a b s).2
    (ensureStatics s.intStatics s.clock).1 (get_rand_impl_int_statics a b s)
  have hfound := mapIndex_found (get_rand_impl_int a b s).2.intGens (a, b)
    defaultIntDist _ hb
  show (sampler_invoke_int (get_rand_impl_int a b s).1
      (get_rand_impl_int a b s).2).1 = _
  rw [get_rand_impl_int_fst, hinv, hfound]

theorem rand_impl_rat_val (a b : ℚ) (s : ProgState)
    (hclean : keyCleanRat s a b) :
    (rand_impl_rat a b s).1
      = (uniform_distribution_rat a b).apply
          (engineNext (ensureStatics s.ratStatics s.clock).1.eng).1 := by
  have hb := get_rand_impl_rat_binds a b s hclean
  have hinv := sampler_invoke_rat_some (a, b) (get_rand_impl_rat a b s).2
    (ensureStatics s.ratStatics s.clock).1 (get_rand_impl_rat_statics a b s)
  have hfound := mapIndex_found (get_rand_impl_rat a b s).2.ratGens (a, b)
    defaultRealDist _ hb
  show (sampler_invoke_rat (get_rand_impl_rat a b s).1
      (get_rand_impl_rat a b s).2).1 = _
  rw [get_rand_impl_rat_fst, hinv, hfound]

theorem rand_impl_int_range (a b : Int) (s : ProgState) (hab : a ≤ b)
    (hclean : keyCleanInt s a b) :
    a ≤ (rand_impl_int a b s).1 ∧ (rand_impl_int a b s).1 ≤ b := by
  rw [rand_impl_int_val a b s hclean]
  exact uniformIntDist_apply_range (uniform_distribution_int a b) _ hab

theorem rand_impl_rat_range (a b : ℚ) (s : ProgState) (hab : a ≤ b)
    (hclean : keyCleanRat s a b) :
    a ≤ (rand_impl_rat a b s).1 ∧ (rand_impl_rat a b s).1 ≤ b := by
  rw [rand_impl_rat_val a b s hclean]
  exact uniformRealDist_apply_range (uniform_distribution_rat a b) _ hab

theorem rand_impl_tmpl_int_range (t : IntTy) (a b : Int) (s : ProgState)
    (hab : a ≤ b) :
    a ≤ (rand_impl_tmpl_int t a b s).1 ∧ (rand_impl_tmpl_int t a b s).1 ≤ b :=
  uniformIntDist_apply_range (uniform_distribution_tmpl_int a b) _ hab

theorem rand_impl_tmpl_rat_range (a b : Int) (s : ProgState) (hab : a ≤ b) :
    (a : ℚ) ≤ (rand_impl_tmpl_rat a b s).1
      ∧ (rand_impl_tmpl_rat a b s).1 ≤ (b : ℚ) := by
  have h : ((a : ℚ) ≤ (b : ℚ)) := by exact_mod_cast hab
  exact uniformRealDist_apply_range (uniform_distribution_tmpl_rat a b) _ h

theorem mod_mul31_add (x y n : Nat) :
    (x % n * 31 + y) % n = (x * 31 + y) % n :=
  ((Nat.mod_modEq x n).mul_right 31).add_right y

/-! ### The claims -/

/-- Claim C1: for every arithmetic value type and every pair (min, max)
with min ≤ max, one call of rand(min, max) returns a value v with
min ≤ v ≤ max, the bounds inclusive on both ends, at the integral and at
the floating-point instantiation alike.  (The cleanliness hypothesis holds
at every key in every state the source program can reach, since the cache
is only ever written by emplacing the distribution constructed for the
written key.) -/
theorem c1_sample_once_in_range :
    (∀ (min max : Int) (s : ProgState), min ≤ max → keyCleanInt s min max →
      min ≤ (rand_int min max s).1 ∧ (rand_int min max s).1 ≤ max) ∧
    (∀ (min max : ℚ) (s : ProgState), min ≤ max → keyCleanRat s min max →
      min ≤ (rand_rat min max s).1 ∧ (rand_rat min max s).1 ≤ max) := by
  constructor
  · intro mn mx s hab hclean
    exact rand_impl_int_range mn mx s hab hclean
  · intro mn mx s hab hclean
    exact rand_impl_rat_range mn mx s hab hclean

/-- Witness for C1 at rand(1, 6) and rand(0.0, 1.0) from the initial
program state. -/
theorem c1_sample_once_in_range_witness :
    ((1 : Int) ≤ 6 ∧ keyCleanInt progInit 1 6 ∧
      1 ≤ (rand_int 1 6 progInit).1 ∧ (rand_int 1 6 progInit).1 ≤ 6) ∧
    ((0 : ℚ) ≤ 1 ∧ keyCleanRat progInit 0 1 ∧
      0 ≤ (rand_rat 0 1 progInit).1 ∧ (rand_rat 0 1 progInit).1 ≤ 1) :=
  ⟨⟨by decide, by decide,
    (c1_sample_once_in_range.1 1 6 progInit (by decide) (by decide)).1,
    (c1_sample_once_in_range.1 1 6 progInit (by decide) (by decide)).2⟩,
   ⟨by norm_num, by decide,
    (c1_sample_once_in_range.2 0 1 progInit (by norm_num) (by decide)).1,
    (c1_sample_once_in_range.2 0 1 progInit (by norm_num) (by decide)).2⟩⟩

/-- Claim C2: get_rand(min, max) returns a zero-argument callable (here a
closure carrying only its captured key), and every one of n successive
invocations of that callable returns a value v with min ≤ v ≤ max, at the
integral and at the floating-point instantiation alike. -/
theorem c2_sampler_values_in_range :
    (∀ (min max : Int) (s : ProgState) (n : Nat), min ≤ max →
      keyCleanInt s min max →
      (get_rand_int min max s).1 = (min, max) ∧
      ∀ v ∈ (sampler_run_int (min, max) n (get_rand_int min max s).2).1,
        min ≤ v ∧ v ≤ max) ∧
    (∀ (min max : ℚ) (s : ProgState) (n : Nat), min ≤ max →
      keyCleanRat s min max →
      (get_rand_rat min max s).1 = (min, max) ∧
      ∀ v ∈ (sampler_run_rat (min, max) n (get_rand_rat min max s).2).1,
        min ≤ v ∧ v ≤ max) := by
  constructor
  · intro mn mx s n hab hclean
    refine ⟨rfl, ?_⟩
    exact sampler_run_int_range mn mx hab n (get_rand_impl_int mn mx s).2
      (ensureStatics s.intStatics s.clock).1 (get_rand_impl_int_statics mn mx s)
      (get_rand_impl_int_binds mn mx s hclean)
  · intro mn mx s n hab hclean
    refine ⟨rfl, ?_⟩
    exact sampler_run_rat_range mn mx hab n (get_rand_impl_rat mn mx s).2
      (ensureStatics s.ratStatics s.clock).1 (get_rand_impl_rat_statics mn mx s)
      (get_rand_impl_rat_binds mn mx s hclean)

/-- Witness for C2: three successive draws of the sampler from
get_rand(1, 6) at the initial state are [2, 5, 2]; the value 5 drawn on the
second invocation lies in [1, 6]; the floating-point sampler for (0, 1) is
the closure keyed (0, 1). -/
theorem c2_sampler_values_in_range_witness :
    ((1 : Int) ≤ 6 ∧ keyCleanInt progInit 1 6 ∧
      (5 : Int) ∈ (sampler_run_int (1, 6) 3 (get_rand_int 1 6 progInit).2).1 ∧
      ((1 : Int) ≤ 5 ∧ (5 : Int) ≤ 6)) ∧
    ((0 : ℚ) ≤ 1 ∧ keyCleanRat progInit 0 1 ∧
      (get_rand_rat 0 1 progInit).1 = (0, 1)) :=
  ⟨⟨by decide, by decide, by decide,
    (c2_sampler_values_in_range.1 1 6 progInit 3 (by decide) (by decide)).2
      5 (by decide)⟩,
   ⟨by norm_num, by decide,
    (c2_sampler_values_in_range.2 0 1 progInit 0 (by norm_num) (by decide)).1⟩⟩

/-- Claim C3 counterexample: there is no single process-wide engine that
every draw reads and advances.  From the initial state, get_rand(1, 6)
initializes the engine statics of get_rand_impl at the integral type
(seed 0); a subsequent template-parameter draw rand(short)() leaves that
engine untouched and instead seeds and advances the engine statics owned
by its own (short, -32768, 32767) specialization, with a different seed. -/
theorem c3_single_engine_counterexample :
    ((rand_impl_tmpl_int shortTy (-32768) 32767
        ((get_rand_impl_int 1 6 progInit).2)).2.intStatics
      = (get_rand_impl_int 1 6 progInit).2.intStatics) ∧
    ((get_rand_impl_int 1 6 progInit).2.intStatics
      = some ⟨0, 0⟩) ∧
    (assocFind (shortTy, -32768, 32767)
        (rand_impl_tmpl_int shortTy (-32768) 32767
          ((get_rand_impl_int 1 6 progInit).2)).2.tmplIntStatics
      = some ⟨1, 7806831264735756412⟩) ∧
    (assocFind (shortTy, -32768, 32767)
        (rand_impl_tmpl_int shortTy (-32768) 32767
          ((get_rand_impl_int 1 6 progInit).2)).2.tmplIntStatics
      ≠ (rand_impl_tmpl_int shortTy (-32768) 32767
          ((get_rand_impl_int 1 6 progInit).2)).2.intStatics) := by
  refine ⟨by decide, by decide, by decide, by decide⟩

/-- Claim C3 as amended: engines are per-specialization statics, not one
process-wide object.  get_rand_impl at a value type owns one engine,
seeded exactly once from a high-resolution clock reading at first use and
never re-seeded afterwards; every sampler invocation and every
function-parameter one-shot draw of that type reads and advances that one
engine; a sampler itself carries only its key, never engine state; and the
template-parameter form touches neither of those engines, drawing from its
own per-(T, min, max) statics instead. -/
theorem c3_per_specialization_engines :
    (∀ (a b : Int) (s : ProgState), s.intStatics = none →
      (get_rand_impl_int a b s).2.intStatics
        = some ⟨gen_seed s.clock, gen_seed s.clock⟩) ∧
    (∀ (s : ProgState) (st : Statics) (ops : List Op),
      s.intStatics = some st →
      ∃ e, (run s ops).intStatics = some ⟨st.seed, e⟩) ∧
    (∀ (key : Int × Int) (s : ProgState) (st : Statics),
      s.intStatics = some st →
      (sampler_invoke_int key s).2.intStatics
        = some ⟨st.seed, (engineNext st.eng).2⟩) ∧
    (∀ (a b : Int) (s : ProgState),
      (rand_impl_int a b s).2.intStatics
        = (sampler_invoke_int (a, b) ((get_rand_impl_int a b s).2)).2.intStatics) ∧
    (∀ (a b : Int) (s : ProgState), (get_rand_impl_int a b s).1 = (a, b)) ∧
    (∀ (t : IntTy) (a b : Int) (s : ProgState),
      (rand_impl_tmpl_int t a b s).2.intStatics = s.intStatics ∧
      (rand_impl_tmpl_int t a b s).2.ratStatics = s.ratStatics) := by
  refine ⟨?_, ?_, ?_, ?_, ?_, ?_⟩
  · intro a b s h
    rw [get_rand_impl_int_statics, h]
    rfl
  · intro s st ops h
    exact run_intStatics_seed s st ops h
  · intro key s st h
    rw [sampler_invoke_int_some key s st h]
  · intro a b s
    rfl
  · intro a b s
    rfl
  · intro t a b s
    exact ⟨rfl, rfl⟩

/-- Witness for C3 as amended: from the state after get_rand(1, 6) (whose
engine statics hold seed 0), a later sampler invocation followed by a
template-parameter draw still leaves the seed at 0. -/
theorem c3_per_specialization_engines_witness :
    (get_rand_impl_int 1 6 progInit).2.intStatics = some ⟨0, 0⟩ ∧
    ∃ e, (run ((get_rand_impl_int 1 6 progInit).2)
        [Op.invokeI (1, 6), Op.randTmplI shortTy 0 9]).intStatics
      = some ⟨0, e⟩ :=
  ⟨by decide,
   c3_per_specialization_engines.2.1 ((get_rand_impl_int 1 6 progInit).2)
     ⟨0, 0⟩ [Op.invokeI (1, 6), Op.randTmplI shortTy 0 9] (by decide)⟩

/-- Claim C4: the sampler cache maps each value-equal key to at most one
distribution object.  When get_rand(min, max) is called twice with
value-equal bounds, the second returned closure carries the same key as
the first, the second call leaves the cache exactly as the first left it
(the entry is not replaced), the entry is the distribution constructed by
the first call, and the key is stored exactly once.  Both instantiations. -/
theorem c4_cache_single_entry_per_key :
    (∀ (min max : Int) (s : ProgState),
      assocFind (min, max) s.intGens = none →
      (get_rand_impl_int min max ((get_rand_impl_int min max s).2)).1
          = (get_rand_impl_int min max s).1 ∧
      (get_rand_impl_int min max ((get_rand_impl_int min max s).2)).2.intGens
          = (get_rand_impl_int min max s).2.intGens ∧
      assocFind (min, max) (get_rand_impl_int min max s).2.intGens
          = some (uniform_distribution_int min max) ∧
      countKey (get_rand_impl_int min max s).2.intGens (min, max) = 1) ∧
    (∀ (min max : ℚ) (s : ProgState),
      assocFind (min, max) s.ratGens = none →
      (get_rand_impl_rat min max ((get_rand_impl_rat min max s).2)).1
          = (get_rand_impl_rat min max s).1 ∧
      (get_rand_impl_rat min max ((get_rand_impl_rat min max s).2)).2.ratGens
          = (get_rand_impl_rat min max s).2.ratGens ∧
      assocFind (min, max) (get_rand_impl_rat min max s).2.ratGens
          = some (uniform_distribution_rat min max) ∧
      countKey (get_rand_impl_rat min max s).2.ratGens (min, max) = 1) := by
  constructor
  · intro mn mx s h
    have hb : assocFind (mn, mx) (get_rand_impl_int mn mx s).2.intGens
        = some (uniform_distribution_int mn mx) :=
      get_rand_impl_int_binds mn mx s (Or.inl h)
    refine ⟨rfl, ?_, hb, ?_⟩
    · rw [get_rand_impl_int_gens mn mx ((get_rand_impl_int mn mx s).2)]
      exact emplace_of_found _ _ _ _ hb
    · rw [get_rand_impl_int_gens mn mx s, emplace_of_none _ _ _ h,
        countKey_append_single, countKey_of_none _ _ h]
  · intro mn mx s h
    have hb : assocFind (mn, mx) (get_rand_impl_rat mn mx s).2.ratGens
        = some (uniform_distribution_rat mn mx) :=
      get_rand_impl_rat_binds mn mx s (Or.inl h)
    refine ⟨rfl, ?_, hb, ?_⟩
    · rw [get_rand_impl_rat_gens mn mx ((get_rand_impl_rat mn mx s).2)]
      exact emplace_of_found _ _ _ _ hb
    · rw [get_rand_impl_rat_gens mn mx s, emplace_of_none _ _ _ h,
        countKey_append_single, countKey_of_none _ _ h]

/-- Witness for C4 at get_rand(1, 6) and get_rand(0.0, 1.0) from the
initial program state, whose caches are empty. -/
theorem c4_cache_single_entry_per_key_witness :
    (assocFind ((1 : Int), (6 : Int)) progInit.intGens = none ∧
      countKey (get_rand_impl_int 1 6 progInit).2.intGens (1, 6) = 1) ∧
    (assocFind ((0 : ℚ), (1 : ℚ)) progInit.ratGens = none ∧
      countKey (get_rand_impl_rat 0 1 progInit).2.ratGens (0, 1) = 1) :=
  ⟨⟨by decide,
    (c4_cache_single_entry_per_key.1 1 6 progInit (by decide)).2.2.2⟩,
   ⟨by decide,
    (c4_cache_single_entry_per_key.2 0 1 progInit (by decide)).2.2.2⟩⟩

/-- Claim C5: with no explicit range, the template form defaults an
integral type to its full representable range - exactly its numeric
limits, so rand(short)() never leaves [-32768, 32767] - and defaults a
floating-point type to the limits of the 64-bit signed integer type cast
to it. -/
theorem c5_default_template_ranges :
    (∀ t : IntTy, range_integral_min t = numeric_limits_min t ∧
      range_integral_max t = numeric_limits_max t) ∧
    (range_floating_min = longlong_min ∧ range_floating_max = longlong_max) ∧
    (∀ (t : IntTy) (s : ProgState),
      numeric_limits_min t ≤ (rand_tmpl_int_default t s).1 ∧
      (rand_tmpl_int_default t s).1 ≤ numeric_limits_max t) ∧
    (∀ s : ProgState,
      rand_tmpl_rat_default s
        = rand_impl_tmpl_rat longlong_min longlong_max s ∧
      ((longlong_min : ℚ) ≤ (rand_tmpl_rat_default s).1 ∧
        (rand_tmpl_rat_default s).1 ≤ (longlong_max : ℚ))) ∧
    (∀ s : ProgState,
      -32768 ≤ (rand_tmpl_int_default shortTy s).1 ∧
      (rand_tmpl_int_default shortTy s).1 ≤ 32767) := by
  refine ⟨fun t => ⟨rfl, rfl⟩, ⟨rfl, rfl⟩, ?_, ?_, ?_⟩
  · intro t s
    exact rand_impl_tmpl_int_range t _ _ s (numeric_limits_min_le_max t)
  · intro s
    exact ⟨rfl,
      rand_impl_tmpl_rat_range longlong_min longlong_max s longlong_min_le_max⟩
  · intro s
    have h := rand_impl_tmpl_int_range shortTy (range_integral_min shortTy)
      (range_integral_max shortTy) s (numeric_limits_min_le_max shortTy)
    have e1 : range_integral_min shortTy = -32768 := by decide
    have e2 : range_integral_max shortTy = 32767 := by decide
    rw [e1, e2] at h
    exact h

/-- Claim C6: the template-parameter form has the same semantics as the
function-parameter form - it constructs a uniform distribution with
identical parameters (the long long bounds cast to the value type at the
floating-point instantiation), the two distributions return the same value
on the same raw engine draw, and the template-form draw lies in the same
inclusive range [min, max]. -/
theorem c6_template_matches_function_form :
    (∀ min max : Int,
      uniform_distribution_tmpl_int min max
        = uniform_distribution_int min max) ∧
    (∀ min max : Int,
      uniform_distribution_tmpl_rat min max
        = uniform_distribution_rat (min : ℚ) (max : ℚ)) ∧
    (∀ (min max : Int) (r : Nat),
      (uniform_distribution_tmpl_int min max).apply r
        = (uniform_distribution_int min max).apply r) ∧
    (∀ (min max : Int) (r : Nat),
      (uniform_distribution_tmpl_rat min max).apply r
        = (uniform_distribution_rat (min : ℚ) (max : ℚ)).apply r) ∧
    (∀ (t : IntTy) (min max : Int) (s : ProgState), min ≤ max →
      min ≤ (rand_tmpl_int t min max s).1
        ∧ (rand_tmpl_int t min max s).1 ≤ max) ∧
    (∀ (min max : Int) (s : ProgState), min ≤ max →
      (min : ℚ) ≤ (rand_tmpl_rat min max s).1
        ∧ (rand_tmpl_rat min max s).1 ≤ (max : ℚ)) := by
  refine ⟨fun a b => rfl, fun a b => rfl, fun a b r => rfl, fun a b r => rfl,
    ?_, ?_⟩
  · intro t a b s hab
    exact rand_impl_tmpl_int_range t a b s hab
  · intro a b s hab
    exact rand_impl_tmpl_rat_range a b s hab

/-- Witness for C6 at rand(short, -2, 3)() and rand(double, -2, 3)() from
the initial program state (the bounds of the repository's own example). -/
theorem c6_template_matches_function_form_witness :
    ((-2 : Int) ≤ 3 ∧
      -2 ≤ (rand_tmpl_int shortTy (-2) 3 progInit).1 ∧
      (rand_tmpl_int shortTy (-2) 3 progInit).1 ≤ 3) ∧
    ((-2 : Int) ≤ 3 ∧
      ((-2 : Int) : ℚ) ≤ (rand_tmpl_rat (-2) 3 progInit).1 ∧
      (rand_tmpl_rat (-2) 3 progInit).1 ≤ ((3 : Int) : ℚ)) :=
  ⟨⟨by decide,
    (c6_template_matches_function_form.2.2.2.2.1 shortTy (-2) 3 progInit
      (by decide)).1,
    (c6_template_matches_function_form.2.2.2.2.1 shortTy (-2) 3 progInit
      (by decide)).2⟩,
   ⟨by decide,
    (c6_template_matches_function_form.2.2.2.2.2 (-2) 3 progInit
      (by decide)).1,
    (c6_template_matches_function_form.2.2.2.2.2 (-2) 3 progInit
      (by decide)).2⟩⟩

/-- Claim C7: the distribution parameters a sampler draws from are fixed
for its lifetime.  After get_rand(min, max) returns its closure, every
sequence of later library calls - repeated invocations of this or any
sampler, later get_rand calls with the same or different bounds, one-shot
and template-form draws (and no re-seeding operation exists) - leaves the
closure's key bound to the distribution with parameters exactly
(min, max). -/
theorem c7_sampler_distribution_params_fixed (min max : Int) (s : ProgState)
    (hclean : keyCleanInt s min max) :
    ∀ ops : List Op,
      assocFind ((get_rand_int min max s).1)
          (run ((get_rand_int min max s).2) ops).intGens
        = some (uniform_distribution_int min max) := by
  intro ops
  exact run_intGens_preserve _ ops (min, max) _
    (get_rand_impl_int_binds min max s hclean)

/-- Witness for C7: after get_rand(1, 6) at the initial state, a mixed
sequence of later calls (an invocation, get_rand with equal and with
different bounds, a template draw, a floating-point get_rand) leaves the
sampler's entry bound to the distribution with parameters (1, 6). -/
theorem c7_sampler_distribution_params_fixed_witness :
    keyCleanInt progInit 1 6 ∧
    assocFind ((get_rand_int 1 6 progInit).1)
        (run ((get_rand_int 1 6 progInit).2)
          [Op.invokeI (1, 6), Op.getRandI 1 6, Op.getRandI 2 10,
           Op.randTmplI shortTy 0 9, Op.getRandR 0 1]).intGens
      = some (uniform_distribution_int 1 6) :=
  ⟨by decide,
   c7_sampler_distribution_params_fixed 1 6 progInit (by decide)
     [Op.invokeI (1, 6), Op.getRandI 1 6, Op.getRandI 2 10,
      Op.randTmplI shortTy 0 9, Op.getRandR 0 1]⟩

/-- Claim C8: rand and get_rand are total - for every bounds pair,
inverted ones included, they return a value and a state, and no error
path exists.  In particular no validation happens when min > max: the
draw of rand(5, 1) from the initial state returns 1442695040888963412,
a value lying neither in [5, 1] nor in the swapped range [1, 5] - the
bounds are not swapped, no InvalidRange error is raised, the behaviour
is simply undefined. -/
theorem c8_total_no_range_validation :
    (∀ (min max : Int) (s : ProgState), ∃ v s2, rand_int min max s = (v, s2)) ∧
    (∀ (min max : Int) (s : ProgState),
      ∃ k s2, get_rand_int min max s = (k, s2)) ∧
    (∀ (min max : ℚ) (s : ProgState), ∃ v s2, rand_rat min max s = (v, s2)) ∧
    (∀ (min max : ℚ) (s : ProgState),
      ∃ k s2, get_rand_rat min max s = (k, s2)) ∧
    (rand_int 5 1 progInit).1 = 1442695040888963412 ∧
    ¬ ((rand_int 5 1 progInit).1 ≤ 5) ∧
    ¬ ((rand_int 5 1 progInit).1 ≤ 1) := by
  refine ⟨fun a b s => ⟨_, _, rfl⟩, fun a b s => ⟨_, _, rfl⟩,
    fun a b s => ⟨_, _, rfl⟩, fun a b s => ⟨_, _, rfl⟩,
    by decide, by decide, by decide⟩

/-- Claim C9: the one-shot rand(min, max) is exactly get_rand(min, max)
followed by one invocation of the returned closure, and as a side effect
it leaves the (min, max) entry present in the memoization cache.  Both
instantiations. -/
theorem c9_one_shot_composes_sampler :
    (∀ (min max : Int) (s : ProgState),
      rand_int min max s
        = sampler_invoke_int (get_rand_int min max s).1
            (get_rand_int min max s).2) ∧
    (∀ (min max : ℚ) (s : ProgState),
      rand_rat min max s
        = sampler_invoke_rat (get_rand_rat min max s).1
            (get_rand_rat min max s).2) ∧
    (∀ (min max : Int) (s : ProgState),
      (assocFind (min, max) (rand_int min max s).2.intGens).isSome = true) ∧
    (∀ (min max : ℚ) (s : ProgState),
      (assocFind (min, max) (rand_rat min max s).2.ratGens).isSome = true) := by
  refine ⟨fun a b s => rfl, fun a b s => rfl, ?_, ?_⟩
  · intro a b s
    show (assocFind (a, b) (sampler_invoke_int (a, b)
        (get_rand_impl_int a b s).2).2.intGens).isSome = true
    cases hf : assocFind (a, b) s.intGens with
    | some d =>
      rw [invoke_int_gens_preserve (a, b) (a, b) d _
        (getRand_int_gens_preserve a b (a, b) d s hf)]
      rfl
    | none =>
      rw [invoke_int_gens_preserve (a, b) (a, b) _ _
        (get_rand_impl_int_binds a b s (Or.inl hf))]
      rfl
  · intro a b s
    show (assocFind (a, b) (sampler_invoke_rat (a, b)
        (get_rand_impl_rat a b s).2).2.ratGens).isSome = true
    cases hf : assocFind (a, b) s.ratGens with
    | some d =>
      rw [invoke_rat_gens_preserve (a, b) (a, b) d _
        (getRand_rat_gens_preserve a b (a, b) d s hf)]
      rfl
    | none =>
      rw [invoke_rat_gens_preserve (a, b) (a, b) _ _
        (get_rand_impl_rat_binds a b s (Or.inl hf))]
      rfl

/-- Claim C10 counterexample: the hash is not computed with fixed-width
unsigned wraparound arithmetic for every pair of every key type.  At the
floating-point instantiation, hash_pair (-1000.0, 0.0) reaches the
floating-to-size_t conversion of 17 * 31 - 1000 = -473, which is undefined
behaviour (no wraparound, no result at all), while the claimed wraparound
computation at the value-equal integral pair (-1000, 0) would return the
well-defined bounded value 4563. -/
theorem c10_wraparound_counterexample :
    hash_pair_rat (-1000, 0) = none ∧
    hash_pair (-1000, 0) = 4563 ∧
    hash_pair (-1000, 0) ≤ 100002 := by
  refine ⟨?_, by decide, by decide⟩
  unfold hash_pair_rat size_t_of_rat
  norm_num [word64]

/-- Claim C10 as amended: at integral key types the default (non-Boost)
hash of a cache key pair is the Sedgewick-Wayne polynomial
(17 * 31 + first) * 31 + second computed in fixed-width unsigned
wraparound (size_t, modulo 2^64) arithmetic, its result masked to 31 bits
and reduced modulo 100003, so it always lies in [0, 100002], and
value-equal pairs hash equal.  At floating-point key types the sums are
instead computed in the floating type and converted back to size_t, which
is undefined behaviour when a truncated intermediate falls outside
size_t's range; whenever the computation is defined its result is bounded
by 100002 the same way, and value-equal pairs hash equal. -/
theorem c10_hash_pair_formula_and_bound :
    (∀ p : Int × Int,
      hash_pair p
        = ((((17 * 31 + size_t_of_int p.1) * 31 + size_t_of_int p.2) % word64)
            &&& 0x7fffffff) % 100003) ∧
    (∀ p : Int × Int, hash_pair p ≤ 100002) ∧
    (∀ p q : Int × Int, p = q → hash_pair p = hash_pair q) ∧
    (∀ (p : ℚ × ℚ) (h2 : Nat), hash_pair_rat p = some h2 → h2 ≤ 100002) ∧
    (∀ p q : ℚ × ℚ, p = q → hash_pair_rat p = hash_pair_rat q) := by
  refine ⟨?_, ?_, ?_, ?_, ?_⟩
  · intro p
    show (((17 * 31 + size_t_of_int p.1) % word64 * 31 + size_t_of_int p.2)
        % word64 &&& 0x7fffffff) % 100003 = _
    rw [mod_mul31_add]
  · intro p
    have h : hash_pair p < 100003 := by
      show (((17 * 31 + size_t_of_int p.1) % word64 * 31 + size_t_of_int p.2)
          % word64 &&& 0x7fffffff) % 100003 < 100003
      exact Nat.mod_lt _ (by norm_num)
    omega
  · intro p q h
    rw [h]
  · intro p h2 hmem
    unfold hash_pair_rat at hmem
    split at hmem
    · exact Option.noConfusion hmem
    · split at hmem
      · exact Option.noConfusion hmem
      · have hv := Option.some.inj hmem
        omega
  · intro p q h
    rw [h]

/-- Witness for C10 as amended: the integral key pair (1, 6) hashes to
16374, inside [0, 100002], equal on the value-equal pair; the
floating-point key pair (3.0, 42.0) hashes (well-definedly) to 16472,
inside [0, 100002], equal on the value-equal pair. -/
theorem c10_hash_pair_formula_and_bound_witness :
    (hash_pair (1, 6) = 16374 ∧ hash_pair (1, 6) ≤ 100002 ∧
      ((1, 6) : Int × Int) = (1, 6) ∧ hash_pair (1, 6) = hash_pair (1, 6)) ∧
    (hash_pair_rat (3, 42) = some 16472 ∧ (16472 : Nat) ≤ 100002 ∧
      ((3, 42) : ℚ × ℚ) = (3, 42) ∧
      hash_pair_rat (3, 42) = hash_pair_rat (3, 42)) :=
  ⟨⟨by decide, c10_hash_pair_formula_and_bound.2.1 (1, 6), rfl,
    c10_hash_pair_formula_and_bound.2.2.1 (1, 6) (1, 6) rfl⟩,
   ⟨by
      unfold hash_pair_rat size_t_of_rat
      norm_num [word64, (by decide : (530 : Int).toNat = 530),
        (by decide : (16472 : Int).toNat = 16472),
        (by decide : 16472 &&& 2147483647 = 16472)],
    c10_hash_pair_formula_and_bound.2.2.2.1 (3, 42) 16472
      (by
        unfold hash_pair_rat size_t_of_rat
        norm_num [word64, (by decide : (530 : Int).toNat = 530),
          (by decide : (16472 : Int).toNat = 16472),
          (by decide : 16472 &&& 2147483647 = 16472)]),
    rfl,
    c10_hash_pair_formula_and_bound.2.2.2.2 (3, 42) (3, 42) rfl⟩⟩

end Randomize
